import Mathlib

/-!
# Verification of the parameter-sweep execution engine

A shallow embedding of the sweep-orchestration and parallel-execution
subsystem of the `parameter-sweep` repository: sample generation over an
n-dimensional parameter space, the three sweep strategies (simple,
recursive, differential), the parallel-backend abstraction, the
failure/retry policy, and the result aggregator/store.

The repository ships the engine as the `parameter_sweep` package; the
sources available here contain only its tutorial caller
(`src/tutorials/parameter_sweep_demo.ipynb`), so every component below is
modelled from the specification's description of the engine, and each
definition's doc comment records which spec clause it embeds.  Scalar
parameter and output values are modelled as rationals (`ℚ`).
-/

namespace ParamSweep

/-! ## Definitions -/


/-- Modelled from the spec: a RunRecord status — `success`, `failed`, or
`infeasible` (§3 RunRecord). -/
inductive Status where
  | success
  | failed
  | infeasible
deriving DecidableEq, Repr

/-- Modelled from the spec: one parameter-value tuple of a SampleBlock,
one scalar value per declared ParameterSpec, in declaration order (§3
SampleBlock). -/
abbrev Tuple : Type := List ℚ

/-- Modelled from the spec: a SampleBlock is an ordered sequence of
parameter-value tuples, one tuple per planned run (§3 SampleBlock). -/
abbrev SampleBlock : Type := List Tuple

/-- Modelled from the spec: a RunRecord is the outcome of one execution —
the input tuple, the declared output values, and a status (§3 RunRecord). -/
structure RunRecord where
  params : Tuple
  outputs : List ℚ
  status : Status
deriving DecidableEq

/-- Modelled from the spec: the contiguous block sizes assigned to each of
`size` ranks when `total` items are scattered — each rank takes the
ceiling share of what remains, so every item is assigned to exactly one
rank and surplus ranks receive an empty share (§4.2 scatter_work). -/
def splitSizes : Nat → Nat → List Nat
  | _, 0 => []
  | total, size + 1 =>
    let share := total / (size + 1) + (if total % (size + 1) > 0 then 1 else 0)
    share :: splitSizes (total - share) size

/-- Cut a list into consecutive chunks of the given sizes. -/
def splitBySizes : List Nat → List α → List (List α)
  | [], _ => []
  | n :: ns, xs => xs.take n :: splitBySizes ns (xs.drop n)

/-- Modelled from the spec: `scatter_work(items) -> local_items` —
deterministic partition of a flat list across `size` ranks by contiguous
block assignment; block assignment is required so that output ordering can
be reconstructed (§4.2). Rank `r` receives entry `r` of the result. -/
def scatter_work (items : List α) (size : Nat) : List (List α) :=
  splitBySizes (splitSizes items.length size) items

/-- Modelled from the spec: `gather(local_result)` — the coordinator
receives one entry per rank, in rank order; empty shares contribute an
empty placeholder (§4.2). -/
def gather (perRank : List β) : List β := perRank

/-- Modelled from the spec: each rank runs its share of tuples through the
Run Executor (§4.4 simple sweep); the executor is a function from one
parameter tuple to a RunRecord (§4.3). -/
def runLocalShare (exec : Tuple → RunRecord) (share : List Tuple) : List RunRecord :=
  share.map exec

/-- Modelled from the spec: the simple sweep scatters the SampleBlock
across ranks, each rank runs its share through the Run Executor, and the
gathered per-rank results are flattened back into original sample order
using the block partition recorded at scatter time (§4.4 simple sweep). -/
def simple_sweep (exec : Tuple → RunRecord) (block : SampleBlock) (size : Nat) :
    List RunRecord :=
  (gather ((scatter_work block size).map (runLocalShare exec))).flatten

/-- Modelled from the spec: the backend selection surface — a
configuration enumeration {serial, process-pool, futures-pool,
message-passing, task-runtime}, each with its own resource parameter
(worker count, or none for message-passing where the rank count is
externally provisioned) (§6). -/
inductive Backend where
  | serial
  | processPool (workers : Nat)
  | futuresPool (workers : Nat)
  | messagePassing (ranks : Nat)
  | taskRuntime (workers : Nat)
deriving DecidableEq, Repr

/-- Modelled from the spec: `size()` — the number of ranks/workers the
backend exposes through the uniform adapter interface (§4.2); serial is
the degenerate one-worker case of the same interface (§5). -/
def Backend.size : Backend → Nat
  | .serial => 1
  | .processPool w => w
  | .futuresPool w => w
  | .messagePassing r => r
  | .taskRuntime w => w

/-- Modelled from the spec: running a sweep under a chosen backend — the
Orchestrator is backend-agnostic and uses only the adapter's
scatter/gather contract, so the backend contributes exactly its
rank/worker count to the execution plan (§4.2 backend selection). -/
def run_sweep_on_backend (b : Backend) (exec : Tuple → RunRecord)
    (block : SampleBlock) : List RunRecord :=
  simple_sweep exec block b.size

/-- Number of RunRecords whose status is `success`. -/
def countSuccess (rs : List RunRecord) : Nat :=
  (rs.filter (fun r => r.status = Status.success)).length

/-- Modelled from the spec: drawing `n` additional tuples from a
continuation of the same seeded sampling stream, starting at stream
position `pos` (§4.4 recursive sweep). -/
def drawTuples (stream : Nat → Tuple) (pos n : Nat) : List Tuple :=
  (List.range n).map (fun i => stream (pos + i))

/-- Modelled from the spec: the successes a deterministic Run Executor
produces on the first `n` samples of the seeded stream — the executor
evaluated on the stream prefix of length `n`, counting successful
outcomes.  Evaluated at the number of runs the bounded compensation loop
attempts, this is the total reachable success count of the recursive
sweep (§4.4): the executor fails deterministically on a fixed subset of
inputs, so this count is a function of the stream and executor alone. -/
def streamSuccesses (exec : Tuple → RunRecord) (stream : Nat → Tuple)
    (n : Nat) : Nat :=
  countSuccess ((drawTuples stream 0 n).map exec)

/-- Modelled from the spec: the outcome of a recursive sweep — all
RunRecords accumulated over the passes (successes and failed attempts,
tagged by status), the number of compensation passes executed, and the
partial-result warning raised when the pass bound was exhausted before the
requested success count was reached (§4.4 recursive sweep, §7
ResamplingExhausted). -/
structure RecSweepResult where
  records : List RunRecord
  passes : Nat
  warning : Bool
deriving DecidableEq

/-- Modelled from the spec: the compensation loop of the recursive sweep.
Each pass draws `requested − successes` tuples from the continuation of
the sampling stream, runs them, and appends the records; the loop stops
when the shortfall is zero or the pass bound (`fuel`) is exhausted, in
which case the partial-result warning is set instead of blocking (§4.4
recursive sweep). -/
def recursiveLoop (exec : Tuple → RunRecord) (stream : Nat → Tuple)
    (requested : Nat) :
    Nat → Nat → Nat → List RunRecord → RecSweepResult
  | 0, _, passesDone, acc =>
    ⟨acc, passesDone, decide (countSuccess acc < requested)⟩
  | fuel + 1, pos, passesDone, acc =>
    let shortfall := requested - countSuccess acc
    if shortfall = 0 then ⟨acc, passesDone, false⟩
    else
      recursiveLoop exec stream requested fuel (pos + shortfall)
        (passesDone + 1) (acc ++ (drawTuples stream pos shortfall).map exec)

/-- Modelled from the spec: the recursive sweep wraps the simple sweep in
a compensation loop bounded by `passBound` passes (§4.4 recursive
sweep). -/
def recursive_sweep (exec : Tuple → RunRecord) (stream : Nat → Tuple)
    (requested passBound : Nat) : RecSweepResult :=
  recursiveLoop exec stream requested passBound 0 0 []

/-- Modelled from the spec: the Run Executor `execute` — builds a fresh
model, applies the tuple, evaluates, classifies the outcome, and returns
an immutable RunRecord holding the input tuple, the extracted outputs and
the status (§4.3); model building, evaluation and output extraction are
opaque collaborators folded into `evalFn`. -/
def execute (evalFn : Tuple → List ℚ × Status) (t : Tuple) : RunRecord :=
  ⟨t, (evalFn t).1, (evalFn t).2⟩

/-- Modelled from the spec: perturbing the single designated differential
parameter (position `j`) of a nominal tuple by `delta`, every other
parameter held at its nominal value (§4.4 differential sweep). -/
def perturbTuple (nominal : Tuple) (j : Nat) (delta : ℚ) : Tuple :=
  List.set nominal j (nominal.getD j 0 + delta)

/-- Modelled from the spec: the inner sweep of the differential strategy —
for one nominal sample, a simple sweep over the one-dimensional block of
perturbations of the designated differential parameter, reusing the same
Run Executor and Backend Adapter (§4.4 differential sweep). -/
def differential_sweep_inner (evalFn : Tuple → List ℚ × Status)
    (nominal : Tuple) (j : Nat) (deltas : List ℚ) (size : Nat) :
    List RunRecord :=
  simple_sweep (execute evalFn) (deltas.map (perturbTuple nominal j)) size

/-- Modelled from the spec: a sampling rule — fixed linear grid, geometric
grid, or draws from a probability distribution (`uniform`, `normal`) (§3
ParameterSpec).  The geometric grid is modelled with a rational first point
and ratio, and distribution draws with a seeded pseudo-random stream whose
exact distribution shape is opaque; only bounds/moments and the stream
matter to the claims. -/
inductive SampleRule where
  | linear (lo hi : ℚ)
  | geometric (first ratio : ℚ)
  | uniform (lo hi : ℚ)
  | normal (mean scale : ℚ)
deriving DecidableEq, Repr

/-- Modelled from the spec: a ParameterSpec — a stable key, a sampling
rule, and the sample count the dimension declares; all dimensions of one
sweep must share the same count (§3 ParameterSpec, §4.1). The
apply-to-model function is an opaque collaborator and is not part of the
sampled data. -/
structure ParameterSpec where
  key : String
  rule : SampleRule
  count : Int
deriving DecidableEq, Repr

/-- Modelled from the spec: the seeded pseudo-random stream backing
distribution draws (§4.1) — a linear congruential generator step. -/
def lcg (s : Nat) : Nat := (1103515245 * s + 12345) % 2147483648

/-- The `k`-th state of the seeded stream started at `s0`. -/
def prngNat (s0 : Nat) : Nat → Nat
  | 0 => lcg s0
  | k + 1 => lcg (prngNat s0 k)

/-- A pseudo-random draw in `[0, 1)` at position `k` of the stream. -/
def unitDraw (s0 k : Nat) : ℚ := (prngNat s0 k : ℚ) / 2147483648

/-- Modelled from the spec: `seed=None` means non-reproducible draws
taken from an external entropy source; any other seed value makes the
block exactly reproducible (§4.1). -/
def seedEffective (seed : Option Nat) (entropy : Nat) : Nat :=
  match seed with
  | some s => s
  | none => entropy

/-- Modelled from the spec: the value dimension `dim` contributes at flat
sample index `i` out of `count` — the `i`-th point of an evenly spaced
1-D grid for `linear`, the `i`-th point of a geometric grid, or the
`i`-th seeded draw of the dimension's distribution (§4.1). -/
def ruleValue (rule : SampleRule) (count s0 dim i : Nat) : ℚ :=
  match rule with
  | .linear lo hi =>
    if count ≤ 1 then lo else lo + (hi - lo) * i / (count - 1)
  | .geometric first ratio => first * ratio ^ i
  | .uniform lo hi => lo + (hi - lo) * unitDraw s0 (dim * count + i)
  | .normal mean scale =>
    mean + scale * (2 * unitDraw s0 (dim * count + i) - 1)

/-- Modelled from the spec: the 1-D grid (or draw sequence) of `count`
values a single dimension produces (§4.1). -/
def dimensionGrid (rule : SampleRule) (count s0 dim : Nat) : List ℚ :=
  (List.range count).map (ruleValue rule count s0 dim)

/-- Modelled from the spec: each dimension independently produces its
`count` values (§4.1); dimensions are numbered in declaration order. -/
def generateArrays (specs : List ParameterSpec) (count s0 : Nat) :
    List (List ℚ) :=
  specs.enum.map (fun p => dimensionGrid p.2.rule count s0 p.1)

/-- Modelled from the spec: the flat linear-index walk — tuple `i` takes
entry `i` from every dimension's array simultaneously, producing `count`
total tuples, not a Cartesian product (§4.1). -/
def assembleTuples (arrays : List (List ℚ)) (count : Nat) : SampleBlock :=
  (List.range count).map (fun i => arrays.map (fun a => a.getD i 0))

/-- Modelled from the spec: the ConfigurationError taxonomy — malformed
ParameterSpec, count mismatch, invalid count, invalid backend parameter —
raised before any run executes, fatal to the call (§4.1, §7). -/
inductive ConfigError where
  | countMismatch
  | invalidCount
  | malformedDistribution
  | invalidBackend
deriving DecidableEq, Repr

/-- Modelled from the spec: malformed distribution parameters — e.g. a
non-positive scale for a `normal` rule, or an empty `uniform` support
(§4.1 error conditions). -/
def malformedRule : SampleRule → Bool
  | .normal _ scale => scale ≤ 0
  | .uniform lo hi => hi < lo
  | _ => false

/-- Modelled from the spec: validation performed before any execution —
zero or negative count, mismatched counts across specs, or malformed
distribution parameters each raise a configuration error (§4.1). -/
def validate (specs : List ParameterSpec) (count : Int) : Option ConfigError :=
  if count ≤ 0 then some .invalidCount
  else if specs.any (fun s => s.count ≠ count) then some .countMismatch
  else if specs.any (fun s => malformedRule s.rule) then some .malformedDistribution
  else none

/-- Modelled from the spec: the Sampler contract
`generate(specs, count, seed) -> SampleBlock` (§4.1): validate the
configuration, then produce one array of `count` values per dimension and
assemble tuple `i` from entry `i` of every array.  `entropy` models the
external randomness consumed only when `seed` is `None`. -/
def generate (specs : List ParameterSpec) (count : Int) (seed : Option Nat)
    (entropy : Nat) : Except ConfigError SampleBlock :=
  match validate specs count with
  | some e => .error e
  | none =>
    .ok (assembleTuples
      (generateArrays specs count.toNat (seedEffective seed entropy))
      count.toNat)

/-- Pick position `g % length` of a non-empty list. -/
def pickAt (g : Nat) (x : α) (rest : List α) : α :=
  (x :: rest).getD (g % (rest.length + 1)) x

/-- Modelled from the spec: the stream-driven shuffle that independently
permutes each dimension's stratum-to-sample assignment (§4.1 Latin
hypercube mode): repeatedly pick a stream-chosen element and remove it. -/
def shuffleDraw [DecidableEq α] : Nat → Nat → List α → List α
  | _, 0, _ => []
  | g, fuel + 1, xs =>
    match xs with
    | [] => []
    | x :: rest =>
      pickAt g x rest :: shuffleDraw (lcg g) fuel ((x :: rest).erase (pickAt g x rest))

/-- Modelled from the spec: the stratum assigned to each sample index for
one dimension in Latin-hypercube mode — a seeded permutation of the
`count` equal-probability strata `{0, …, count−1}` (§4.1). Entry `i` is
sample `i`'s stratum for dimension `dim`. -/
def latin_hypercube_strata (s0 count dim : Nat) : List Nat :=
  shuffleDraw (prngNat s0 dim) count (List.range count)

/-- Modelled from the spec: the sampled value for one dimension in
Latin-hypercube mode — the assigned stratum plus intra-stratum jitter,
scaled to the dimension's range (§4.1). -/
def latin_hypercube_points (s0 count dim : Nat) (lo hi : ℚ) : List ℚ :=
  (latin_hypercube_strata s0 count dim).map
    (fun (k : Nat) =>
      lo + (hi - lo) * ((k : ℚ) + unitDraw s0 (dim * count + k)) / count)

/-- Modelled from the spec: a SweepResult — the full table of RunRecords
in deterministic run order plus sweep-level metadata (requested sample
count, achieved sample count, backend identity) (§3 SweepResult). -/
structure SweepResult where
  paramKeys : List String
  outputKeys : List String
  records : List RunRecord
  requested : Int
  achieved : Nat
  backend : Backend
deriving DecidableEq

/-- Modelled from the spec: the SampleBlock/RunRecord shape invariant —
every tuple has exactly one value per declared ParameterSpec, and every
record one value per declared output (§3 SampleBlock, §4.5). -/
def Wellformed (r : SweepResult) : Prop :=
  ∀ rec ∈ r.records,
    rec.params.length = r.paramKeys.length ∧
    rec.outputs.length = r.outputKeys.length

/-- Modelled from the spec: the persisted structured container — one
table keyed by run index with one column per declared input ParameterSpec
key and per declared output name, a per-run status vector, and the sweep
metadata (§4.5, §6 persisted-store layout). -/
structure StoreGroup where
  paramColumns : List (List ℚ)
  outputColumns : List (List ℚ)
  statusColumn : List Status
  requested : Int
  achieved : Nat
  backend : Backend
deriving DecidableEq

/-- Column `j` of a row-major table, padding missing entries with 0. -/
def columnOf (rows : List (List ℚ)) (j : Nat) : List ℚ :=
  rows.map (fun row => row.getD j 0)

/-- All `width` columns of a row-major table. -/
def toColumns (rows : List (List ℚ)) (width : Nat) : List (List ℚ) :=
  (List.range width).map (columnOf rows)

/-- Row `i` of a column-major table. -/
def rowsOf (cols : List (List ℚ)) (n : Nat) : List (List ℚ) :=
  (List.range n).map (fun i => cols.map (fun c => c.getD i 0))

/-- Modelled from the spec: `persist(SweepResult, destination)` — builds
the column-per-key structured container from the row-per-run records
(§4.5). -/
def persist (r : SweepResult) : StoreGroup :=
  { paramColumns := toColumns (r.records.map RunRecord.params) r.paramKeys.length
    outputColumns := toColumns (r.records.map RunRecord.outputs) r.outputKeys.length
    statusColumn := r.records.map RunRecord.status
    requested := r.requested
    achieved := r.achieved
    backend := r.backend }

/-- Modelled from the spec: reading the parameter table back from the
structured store — one row per run index (§4.5, §8 round-trip). -/
def read_param_table (g : StoreGroup) : List (List ℚ) :=
  rowsOf g.paramColumns g.statusColumn.length

/-- Modelled from the spec: reading the output table back from the
structured store — one row per run index (§4.5, §8 round-trip). -/
def read_output_table (g : StoreGroup) : List (List ℚ) :=
  rowsOf g.outputColumns g.statusColumn.length

/-- Modelled from the spec: the optional flat tabular export — one flat
row per run holding the parameter values followed by the output values,
mirroring the same table for spreadsheet-style consumption (§4.5). -/
def flat_export (r : SweepResult) : List (List ℚ) :=
  r.records.map (fun rec => rec.params ++ rec.outputs)

/-- Reading the parameter table back from the flat export: the first
`nparams` cells of each row. -/
def read_flat_params (rows : List (List ℚ)) (nparams : Nat) : List (List ℚ) :=
  rows.map (List.take nparams)

/-- Reading the output table back from the flat export: the cells of each
row after the first `nparams`. -/
def read_flat_outputs (rows : List (List ℚ)) (nparams : Nat) : List (List ℚ) :=
  rows.map (List.drop nparams)

/-- Modelled from the spec: a sweep configuration — the declared specs,
requested sample count, seed and backend choice (§6). -/
structure SweepConfig where
  specs : List ParameterSpec
  num_samples : Int
  seed : Option Nat
  backend : Backend
deriving DecidableEq

/-- Modelled from the spec: one sweep invocation with validation — a
ConfigurationError is raised before any run executes and is fatal to the
call (§7): the returned triple exposes the outcome, the list of runs that
were executed, and the store that was persisted (if any), so the
no-execution / no-persistence guarantee is observable. -/
def parameter_sweep_checked (cfg : SweepConfig) (exec : Tuple → RunRecord)
    (entropy : Nat) :
    Except ConfigError SweepResult × List RunRecord × Option StoreGroup :=
  match generate cfg.specs cfg.num_samples cfg.seed entropy with
  | .error e => (.error e, [], none)
  | .ok block =>
    let records := simple_sweep exec block cfg.backend.size
    let result : SweepResult :=
      { paramKeys := cfg.specs.map ParameterSpec.key
        outputKeys := []
        records := records
        requested := cfg.num_samples
        achieved := countSuccess records
        backend := cfg.backend }
    (.ok result, records, some (persist result))

/-- Modelled from the spec: an opaque model handle (§6 model-building
contract); the core never inspects its structure, so it is modelled as a
bag of named values. -/
abbrev Model : Type := List (String × ℚ)

/-- Modelled from the spec: keyword-argument bags passed through to the
user callbacks (§6). -/
abbrev Kwargs : Type := List (String × ℚ)

/-- Modelled from the spec and the tutorial caller: the common public
entry-point argument list shared by all three sweep variants —
`parameter_sweep(build_model, build_sweep_params, build_outputs,
build_outputs_kwargs, num_samples, seed, build_model_kwargs,
build_sweep_params_kwargs)` (tutorial cells calling `ps.parameter_sweep`,
`rps.parameter_sweep`, `dps.parameter_sweep`). -/
structure EntryArgs where
  build_model : Kwargs → Model
  build_sweep_params : Model → Kwargs → List ParameterSpec
  build_outputs : Model → Kwargs → List (String × ℚ)
  build_outputs_kwargs : Kwargs
  num_samples : Int
  seed : Option Nat
  build_model_kwargs : Kwargs
  build_sweep_params_kwargs : Kwargs

/-- The declared specs an entry invocation works over. -/
def EntryArgs.specs (args : EntryArgs) : List ParameterSpec :=
  args.build_sweep_params (args.build_model args.build_model_kwargs)
    args.build_sweep_params_kwargs

/-- The evaluation function an entry invocation folds its callbacks into:
outputs extracted from the (opaque) built model (§4.3). -/
def EntryArgs.evalFn (args : EntryArgs) : Tuple → List ℚ × Status :=
  fun _ =>
    ((args.build_outputs (args.build_model args.build_model_kwargs)
        args.build_outputs_kwargs).map Prod.snd,
      Status.success)

/-- The SweepResult an entry invocation assembles from its records. -/
def EntryArgs.mkResult (args : EntryArgs) (records : List RunRecord) :
    SweepResult :=
  { paramKeys := args.specs.map ParameterSpec.key
    outputKeys := (args.build_outputs (args.build_model args.build_model_kwargs)
        args.build_outputs_kwargs).map Prod.fst
    records := records
    requested := args.num_samples
    achieved := countSuccess records
    backend := Backend.serial }

/-- The pair every successful entry call returns: the results array (the
flat per-run table) and the results dictionary (the structured
SweepResult). -/
def mkReturn (r : SweepResult) : List (List ℚ) × SweepResult :=
  (flat_export r, r)

/-- Modelled from the spec and the tutorial caller: the simple sweep's
public entry point `ps.parameter_sweep(...)`; on success it returns the
pair `(results_array, results_dict)`. -/
def ParameterSweep.parameter_sweep (args : EntryArgs) :
    Except ConfigError (List (List ℚ) × SweepResult) :=
  match generate args.specs args.num_samples args.seed 0 with
  | .error e => .error e
  | .ok block =>
    .ok (mkReturn (args.mkResult (simple_sweep (execute args.evalFn) block 1)))

/-- The sampling-stream continuation an entry invocation draws
compensation tuples from (§4.4 recursive sweep). -/
def EntryArgs.stream (args : EntryArgs) : Nat → Tuple :=
  fun i =>
    args.specs.enum.map
      (fun p => ruleValue p.2.rule args.num_samples.toNat
        (seedEffective args.seed 0) p.1 i)

/-- Modelled from the spec and the tutorial caller: the recursive sweep's
public entry point `rps.parameter_sweep(...)` — the identical argument
list, wrapping the compensation loop; on success it returns the pair
`(results_array, results_dict)`. -/
def RecursiveParameterSweep.parameter_sweep (args : EntryArgs) :
    Except ConfigError (List (List ℚ) × SweepResult) :=
  match generate args.specs args.num_samples args.seed 0 with
  | .error e => .error e
  | .ok _ =>
    .ok (mkReturn (args.mkResult
      (recursive_sweep (execute args.evalFn) args.stream
        args.num_samples.toNat 10).records))

/-- Modelled from the spec and the tutorial caller: the differential
sweep's public entry point `dps.parameter_sweep(...)` — the identical
argument list, running the nominal sweep and one inner perturbation sweep
per nominal sample; on success it returns the pair
`(results_array, results_dict)`. -/
def DifferentialParameterSweep.parameter_sweep (args : EntryArgs) :
    Except ConfigError (List (List ℚ) × SweepResult) :=
  match generate args.specs args.num_samples args.seed 0 with
  | .error e => .error e
  | .ok block =>
    .ok (mkReturn (args.mkResult
      (block.map (execute args.evalFn) ++
        (block.map
          (fun nominal =>
            differential_sweep_inner args.evalFn nominal 0 [1] 1)).flatten)))

/-! ## Theorems -/

/-- Each rank's share is at most the whole item count. -/
theorem splitSizes_share_le (total size : Nat) :
    total / (size + 1) + (if total % (size + 1) > 0 then 1 else 0) ≤ total := by
  by_cases h : total % (size + 1) > 0
  · have htot : 0 < total := by
      rcases Nat.eq_zero_or_pos total with h0 | h0
      · subst h0; simp at h
      · exact h0
    have hsz : 1 < size + 1 := by
      rcases Nat.eq_zero_or_pos size with h0 | h0
      · subst h0; simp [Nat.mod_one] at h
      · omega
    have := Nat.div_lt_self htot hsz
    simp only [h, if_pos]
    omega
  · have hz : (if total % (size + 1) > 0 then 1 else 0) = 0 := by simp [h]
    rw [hz]
    have := Nat.div_le_self total (size + 1)
    omega

/-- The block sizes recorded at scatter time add up to the whole list:
every item is assigned to exactly one rank. -/
theorem splitSizes_sum (size : Nat) (hsize : 0 < size) (total : Nat) :
    (splitSizes total size).sum = total := by
  induction size generalizing total with
  | zero => omega
  | succ n ih =>
    rcases Nat.eq_zero_or_pos n with h0 | h0
    · subst h0
      simp [splitSizes, Nat.mod_one]
    · have hle := splitSizes_share_le total n
      simp only [splitSizes, List.sum_cons, ih h0]
      omega

/-- Concatenating the chunks of `splitBySizes` recovers a prefix of the
original list, of length the sum of the sizes. -/
theorem splitBySizes_flatten (ns : List Nat) (xs : List α) :
    (splitBySizes ns xs).flatten = xs.take ns.sum := by
  induction ns generalizing xs with
  | nil => simp [splitBySizes]
  | cons n ns ih =>
    simp only [splitBySizes, List.flatten_cons, ih, List.sum_cons]
    rw [List.take_add]

/-- Flattening the scattered shares in rank order reproduces the original
list exactly: the partition plan loses no item and keeps the order. -/
theorem scatter_work_flatten (items : List α) (size : Nat) (hsize : 0 < size) :
    (scatter_work items size).flatten = items := by
  unfold scatter_work
  rw [splitBySizes_flatten, splitSizes_sum size hsize, List.take_length]

/-- Mapping each chunk then joining equals joining then mapping. -/
theorem map_flatten_eq (f : α → β) (xss : List (List α)) :
    (xss.map (List.map f)).flatten = xss.flatten.map f := by
  induction xss with
  | nil => simp
  | cons xs xss ih =>
    simp only [List.map_cons, List.flatten_cons, List.map_append, ih]

/-- Shared helper: for any positive worker count, the simple sweep equals
the executor mapped over the block in input order. -/
theorem simple_sweep_eq_map (exec : Tuple → RunRecord)
    (block : SampleBlock) (size : Nat) (hsize : 0 < size) :
    simple_sweep exec block size = block.map exec := by
  unfold simple_sweep gather runLocalShare
  rw [map_flatten_eq, scatter_work_flatten block size hsize]

/-- C1. For every SampleBlock, every contiguous partition of it across any
positive number of workers, and any per-run executor, flattening the
RunRecords gathered by the simple sweep reproduces exactly the original
order of the SampleBlock's tuples: the result is the executor mapped over
the block in its original order, so the mapping from global sample index
to RunRecord is fixed by the partition plan recorded at scatter time, not
by completion order. -/
theorem simple_sweep_preserves_order (exec : Tuple → RunRecord)
    (block : SampleBlock) (size : Nat) (hsize : 0 < size) :
    simple_sweep exec block size = block.map exec :=
  simple_sweep_eq_map exec block size hsize

/-- Witness for C1: a concrete three-tuple block scattered over two
workers flattens back to the executor applied in input order. -/
theorem simple_sweep_preserves_order_witness :
    simple_sweep (fun t => ⟨t, [], Status.success⟩) [[(1 : ℚ)], [2], [3]] 2
      = [⟨[(1 : ℚ)], [], Status.success⟩, ⟨[2], [], Status.success⟩,
         ⟨[3], [], Status.success⟩] := by
  rw [simple_sweep_preserves_order (fun t => ⟨t, [], Status.success⟩)
    [[(1 : ℚ)], [2], [3]] 2 (by decide)]
  rfl

/-- C4. Backend selection is a pure configuration choice: for every sweep
configuration (block and executor) and every pair of backends with at
least one worker each, running the same sweep under the two backends
yields identical results tables; only wall-clock behavior and failure
characteristics may differ. -/
theorem backend_switch_preserves_results (b₁ b₂ : Backend)
    (exec : Tuple → RunRecord) (block : SampleBlock)
    (h₁ : 0 < b₁.size) (h₂ : 0 < b₂.size) :
    run_sweep_on_backend b₁ exec block = run_sweep_on_backend b₂ exec block := by
  unfold run_sweep_on_backend
  rw [simple_sweep_eq_map exec block b₁.size h₁,
    simple_sweep_eq_map exec block b₂.size h₂]

/-- Witness for C4: the serial backend and a three-worker process pool
produce the same results table on a concrete two-tuple block. -/
theorem backend_switch_preserves_results_witness :
    run_sweep_on_backend Backend.serial (fun t => ⟨t, [List.sum t], Status.success⟩)
        [[(1 : ℚ), 2], [3, 4]]
      = run_sweep_on_backend (Backend.processPool 3)
        (fun t => ⟨t, [List.sum t], Status.success⟩) [[(1 : ℚ), 2], [3, 4]] :=
  backend_switch_preserves_results Backend.serial (Backend.processPool 3)
    (fun t => ⟨t, [List.sum t], Status.success⟩) [[(1 : ℚ), 2], [3, 4]]
    (by decide) (by decide)

theorem countSuccess_append (a b : List RunRecord) :
    countSuccess (a ++ b) = countSuccess a + countSuccess b := by
  unfold countSuccess
  rw [List.filter_append, List.length_append]

theorem countSuccess_le_length (rs : List RunRecord) :
    countSuccess rs ≤ rs.length :=
  List.length_filter_le _ rs

/-- Invariant of the compensation loop: successes never exceed the
requested count, the pass counter grows by at most the remaining fuel,
and the warning is raised exactly when the loop ends short. -/
theorem recursiveLoop_spec (exec : Tuple → RunRecord) (stream : Nat → Tuple)
    (requested : Nat) (fuel : Nat) :
    ∀ pos passesDone acc, countSuccess acc ≤ requested →
      countSuccess
          (recursiveLoop exec stream requested fuel pos passesDone acc).records
        ≤ requested ∧
      (recursiveLoop exec stream requested fuel pos passesDone acc).passes
        ≤ passesDone + fuel ∧
      ((recursiveLoop exec stream requested fuel pos passesDone acc).warning
          = true ↔
        countSuccess
            (recursiveLoop exec stream requested fuel pos passesDone acc).records
          < requested) := by
  induction fuel with
  | zero =>
    intro pos passesDone acc hacc
    refine ⟨hacc, Nat.le_refl _, ?_⟩
    simp [recursiveLoop]
  | succ n ih =>
    intro pos passesDone acc hacc
    simp only [recursiveLoop]
    by_cases h : requested - countSuccess acc = 0
    · have heq : countSuccess acc = requested := by omega
      rw [if_pos h]
      exact ⟨hacc, by show passesDone ≤ passesDone + (n + 1); omega,
        by simp [heq]⟩
    · rw [if_neg h]
      have hacc' : countSuccess
          (acc ++ (drawTuples stream pos (requested - countSuccess acc)).map
            exec) ≤ requested := by
        rw [countSuccess_append]
        have hle := countSuccess_le_length
          ((drawTuples stream pos (requested - countSuccess acc)).map exec)
        have hlen : ((drawTuples stream pos (requested - countSuccess acc)).map
            exec).length = requested - countSuccess acc := by
          simp [drawTuples]
        omega
      obtain ⟨h1, h2, h3⟩ := ih (pos + (requested - countSuccess acc))
        (passesDone + 1) _ hacc'
      exact ⟨h1, by omega, h3⟩

/-- Two consecutive draw windows of the stream form one window. -/
theorem drawTuples_append (stream : Nat → Tuple) (p a b : Nat) :
    drawTuples stream p a ++ drawTuples stream (p + a) b
      = drawTuples stream p (a + b) := by
  unfold drawTuples
  rw [List.range_add, List.map_append, List.map_map]
  congr 1
  refine List.map_congr_left (fun i _ => ?_)
  show stream (p + a + i) = stream (p + (a + i))
  rw [Nat.add_assoc]

/-- An executor that succeeds everywhere makes every run of a window a
success. -/
theorem countSuccess_map_success (l : List Tuple) (exec : Tuple → RunRecord)
    (h : ∀ t, (exec t).status = Status.success) :
    countSuccess (l.map exec) = l.length := by
  have hall : ∀ a ∈ l.map exec, decide (a.status = Status.success) = true := by
    intro a ha
    obtain ⟨t, _, rfl⟩ := List.mem_map.mp ha
    simp [h t]
  unfold countSuccess
  rw [List.filter_eq_self.mpr hall, List.length_map]

/-- On an everywhere-succeeding executor the reachable-success count of a
stream prefix is its full length. -/
theorem streamSuccesses_all (exec : Tuple → RunRecord) (stream : Nat → Tuple)
    (h : ∀ t, (exec t).status = Status.success) (n : Nat) :
    streamSuccesses exec stream n = n := by
  unfold streamSuccesses
  rw [countSuccess_map_success _ _ h]
  simp [drawTuples]

/-- Once the requested success count is reached, the compensation loop
stops at once, without a warning, whatever fuel remains. -/
theorem recursiveLoop_done (exec : Tuple → RunRecord) (stream : Nat → Tuple)
    (requested fuel pos passes : Nat) (acc : List RunRecord)
    (h : countSuccess acc = requested) :
    recursiveLoop exec stream requested fuel pos passes acc
      = ⟨acc, passes, false⟩ := by
  cases fuel with
  | zero => simp [recursiveLoop, h, Nat.lt_irrefl]
  | succ n => simp [recursiveLoop, h, Nat.sub_self]

/-- The records accumulated by the compensation loop are always the
executor run over a prefix of the stream, in stream order. -/
theorem recursiveLoop_prefix (exec : Tuple → RunRecord) (stream : Nat → Tuple)
    (requested : Nat) (fuel : Nat) :
    ∀ pos passes acc, acc = (drawTuples stream 0 pos).map exec →
      ∃ N, (recursiveLoop exec stream requested fuel pos passes acc).records
        = (drawTuples stream 0 N).map exec := by
  induction fuel with
  | zero =>
    intro pos passes acc hacc
    exact ⟨pos, hacc⟩
  | succ n ih =>
    intro pos passes acc hacc
    simp only [recursiveLoop]
    by_cases h : requested - countSuccess acc = 0
    · rw [if_pos h]
      exact ⟨pos, hacc⟩
    · rw [if_neg h]
      apply ih
      have key : ∀ k, acc ++ (drawTuples stream pos k).map exec
          = (drawTuples stream 0 (pos + k)).map exec := by
        intro k
        rw [hacc, ← List.map_append]
        congr 1
        have h0 : drawTuples stream pos k = drawTuples stream (0 + pos) k := by
          rw [Nat.zero_add]
        rw [h0, drawTuples_append]
      exact key _

/-- Attainment: when the executor's fixed failure set meets the stream at
most `F` times and more than `F` passes of fuel remain (relative to the
failures already consumed), the compensation loop reaches exactly the
requested success count, with no warning. -/
theorem recursiveLoop_attains (exec : Tuple → RunRecord)
    (stream : Nat → Tuple) (requested F : Nat)
    (hF : ∀ n, n - streamSuccesses exec stream n ≤ F) (fuel : Nat) :
    ∀ pos passes acc,
      acc = (drawTuples stream 0 pos).map exec →
      countSuccess acc ≤ requested →
      F < fuel + (pos - countSuccess acc) →
      countSuccess
          (recursiveLoop exec stream requested fuel pos passes acc).records
        = requested ∧
      (recursiveLoop exec stream requested fuel pos passes acc).warning
        = false := by
  induction fuel with
  | zero =>
    intro pos passes acc hacc hle hlt
    exfalso
    have h1 := hF pos
    have h2 : streamSuccesses exec stream pos = countSuccess acc := by
      unfold streamSuccesses
      rw [hacc]
    omega
  | succ n ih =>
    intro pos passes acc hacc hle hlt
    simp only [recursiveLoop]
    by_cases h : requested - countSuccess acc = 0
    · rw [if_pos h]
      exact ⟨by show countSuccess acc = requested; omega, rfl⟩
    · rw [if_neg h]
      have hlen_acc : acc.length = pos := by
        rw [hacc]
        simp [drawTuples]
      have hslen : countSuccess acc ≤ pos :=
        le_of_le_of_eq (countSuccess_le_length acc) hlen_acc
      have hwin_le : countSuccess
            ((drawTuples stream pos (requested - countSuccess acc)).map exec)
          ≤ requested - countSuccess acc := by
        have hl := countSuccess_le_length
          ((drawTuples stream pos (requested - countSuccess acc)).map exec)
        simpa [drawTuples] using hl
      have key : ∀ k, acc ++ (drawTuples stream pos k).map exec
          = (drawTuples stream 0 (pos + k)).map exec := by
        intro k
        rw [hacc, ← List.map_append]
        congr 1
        have h0 : drawTuples stream pos k = drawTuples stream (0 + pos) k := by
          rw [Nat.zero_add]
        rw [h0, drawTuples_append]
      have hacc' : acc ++
            (drawTuples stream pos (requested - countSuccess acc)).map exec
          = (drawTuples stream 0
              (pos + (requested - countSuccess acc))).map exec := key _
      have hcnt' : countSuccess (acc ++
            (drawTuples stream pos (requested - countSuccess acc)).map exec)
          = countSuccess acc + countSuccess
            ((drawTuples stream pos (requested - countSuccess acc)).map exec) :=
        countSuccess_append _ _
      by_cases hw : countSuccess
            ((drawTuples stream pos (requested - countSuccess acc)).map exec)
          = requested - countSuccess acc
      · have hdone : countSuccess (acc ++
              (drawTuples stream pos (requested - countSuccess acc)).map exec)
            = requested := by
          rw [hcnt', hw]
          omega
        rw [recursiveLoop_done exec stream requested n _ _ _ hdone]
        exact ⟨hdone, rfl⟩
      · apply ih
        · exact hacc'
        · rw [hcnt']
          omega
        · rw [hcnt']
          omega

/-- C2. For every deterministic Run Executor, sampling stream, requested
count and pass bound: the final records are exactly the executor run over
the stream prefix the bounded sweep attempts, so the number of successful
runs equals `min(requested, total reachable successes)` with the
reachable successes counted by `streamSuccesses` over that attempted
prefix; the number of compensation passes never exceeds the pass bound;
the sweep always returns a result (the loop is a total function) and
carries the partial-result warning exactly when it ends short of the
requested count instead of blocking; and whenever enough successes are
reachable — the executor's fixed failure set meets the stream at most
`F` times, with `F` below the pass bound — the success count attains
exactly the requested count. -/
theorem recursive_sweep_spec (exec : Tuple → RunRecord)
    (stream : Nat → Tuple) (requested passBound : Nat) :
    countSuccess (recursive_sweep exec stream requested passBound).records
        = min requested
          (streamSuccesses exec stream
            (recursive_sweep exec stream requested passBound).records.length) ∧
    (recursive_sweep exec stream requested passBound).records
        = (drawTuples stream 0
            (recursive_sweep exec stream requested passBound).records.length).map
          exec ∧
    (recursive_sweep exec stream requested passBound).passes ≤ passBound ∧
    ((recursive_sweep exec stream requested passBound).warning = true ↔
      countSuccess (recursive_sweep exec stream requested passBound).records
        < requested) ∧
    (∀ F, (∀ n, n - streamSuccesses exec stream n ≤ F) → F < passBound →
      countSuccess (recursive_sweep exec stream requested passBound).records
        = requested) := by
  unfold recursive_sweep
  obtain ⟨h1, h2, h3⟩ := recursiveLoop_spec exec stream requested passBound 0 0 []
    (by simp [countSuccess])
  obtain ⟨N, hN⟩ := recursiveLoop_prefix exec stream requested passBound 0 0 []
    (by simp [drawTuples])
  have hlen : (recursiveLoop exec stream requested passBound 0 0 []).records.length
      = N := by
    rw [hN, List.length_map]
    unfold drawTuples
    rw [List.length_map, List.length_range]
  have hprefix : (recursiveLoop exec stream requested passBound 0 0 []).records
      = (drawTuples stream 0
          (recursiveLoop exec stream requested passBound 0 0 []).records.length).map
        exec := by
    rw [hlen]
    exact hN
  refine ⟨?_, hprefix, by omega, h3, ?_⟩
  · rw [hlen]
    have hss : streamSuccesses exec stream N
        = countSuccess (recursiveLoop exec stream requested passBound 0 0 []).records := by
      unfold streamSuccesses
      rw [← hN]
    rw [hss]
    omega
  · intro F hF hFB
    exact (recursiveLoop_attains exec stream requested F hF passBound 0 0 []
      (by simp [drawTuples]) (by simp [countSuccess])
      (by simp [countSuccess]; omega)).1

/-- Witness for C2: with an executor that never fails (its failure set
meets the stream 0 times) and a pass bound of 1, the recursive sweep
attains exactly the 3 requested successes. -/
theorem recursive_sweep_spec_witness :
    countSuccess (recursive_sweep (fun t => ⟨t, [], Status.success⟩)
        (fun i => [(i : ℚ)]) 3 1).records = 3 :=
  (recursive_sweep_spec (fun t => ⟨t, [], Status.success⟩)
      (fun i => [(i : ℚ)]) 3 1).2.2.2.2 0
    (fun n => by
      rw [streamSuccesses_all (fun t => ⟨t, [], Status.success⟩)
        (fun i => [(i : ℚ)]) (fun t => rfl) n]
      omega)
    (by decide)

/-- Reading a position other than the one set leaves the value unchanged. -/
theorem getD_set_ne (l : List ℚ) (j i : Nat) (v d : ℚ) (h : i ≠ j) :
    (l.set j v).getD i d = l.getD i d := by
  rw [List.getD_eq_getElem?_getD, List.getD_eq_getElem?_getD,
    List.getElem?_set_ne (fun hji => h hji.symm)]

/-- C3. For every nominal sample of a differential sweep and every
differential RunRecord produced for it by the inner sweep, all parameter
values other than the single perturbed differential parameter (position
`j`) are identical to that nominal sample's values. -/
theorem differential_record_fixes_other_params
    (evalFn : Tuple → List ℚ × Status) (nominal : Tuple) (j : Nat)
    (deltas : List ℚ) (size : Nat) (hsize : 0 < size) (rec : RunRecord)
    (hrec : rec ∈ differential_sweep_inner evalFn nominal j deltas size)
    (i : Nat) (hij : i ≠ j) :
    rec.params.getD i 0 = nominal.getD i 0 := by
  unfold differential_sweep_inner at hrec
  rw [simple_sweep_eq_map _ _ size hsize, List.map_map] at hrec
  obtain ⟨d, _, hd⟩ := List.mem_map.mp hrec
  rw [← hd]
  exact getD_set_ne nominal j i _ 0 hij

/-- Witness for C3: perturbing position 1 of the nominal tuple `[5, 7]`
by `+1` produces the record with parameters `[5, 8]`, whose position 0
still holds the nominal value 5. -/
theorem differential_record_fixes_other_params_witness :
    (execute (fun t => ([List.sum t], Status.success))
        (perturbTuple [(5 : ℚ), 7] 1 1)).params.getD 0 0
      = ([(5 : ℚ), 7] : Tuple).getD 0 0 :=
  differential_record_fixes_other_params
    (fun t => ([List.sum t], Status.success)) [(5 : ℚ), 7] 1 [(1 : ℚ), -1] 2
    (by decide)
    (execute (fun t => ([List.sum t], Status.success))
      (perturbTuple [(5 : ℚ), 7] 1 1))
    (by
      unfold differential_sweep_inner
      rw [simple_sweep_eq_map _ _ 2 (by decide)]
      exact List.mem_map_of_mem _ (List.mem_map_of_mem _ (by simp)))
    0 (by decide)

/-- Reading a mapped list at an in-range index applies the function to the
underlying element. -/
theorem getD_map_of_lt (l : List α) (f : α → ℚ) (i : Nat) (h : i < l.length)
    (d : ℚ) : (l.map f).getD i d = f (l.get ⟨i, h⟩) := by
  rw [List.getD_eq_getElem?_getD, List.getElem?_map,
    List.getElem?_eq_getElem h]
  rfl

/-- Reading `assembleTuples` at an in-range sample index yields entry `i`
of every dimension array. -/
theorem assembleTuples_getD (arrays : List (List ℚ)) (n i : Nat)
    (hi : i < n) :
    (assembleTuples arrays n).getD i [] = arrays.map (fun a => a.getD i 0) := by
  unfold assembleTuples
  rw [List.getD_eq_getElem?_getD, List.getElem?_map,
    List.getElem?_range hi]
  rfl

/-- Entry `i` of a dimension's grid is the dimension's `i`-th point. -/
theorem dimensionGrid_getD (rule : SampleRule) (n s0 dim i : Nat)
    (hi : i < n) :
    (dimensionGrid rule n s0 dim).getD i 0 = ruleValue rule n s0 dim i := by
  unfold dimensionGrid
  rw [List.getD_eq_getElem?_getD, List.getElem?_map,
    List.getElem?_range hi]
  rfl

/-- C5. For every set of ParameterSpecs and count that pass validation
(counts all agree, count positive, rules well-formed), `generate` returns
a SampleBlock of exactly `count` tuples, and tuple `i` draws the `i`-th
grid point from every dimension simultaneously — a flat linear-index
walk, not a Cartesian product. -/
theorem generate_linear_index_walk (specs : List ParameterSpec)
    (count : Int) (seed : Option Nat) (entropy : Nat)
    (hval : validate specs count = none) :
    ∃ block, generate specs count seed entropy = Except.ok block ∧
      block.length = count.toNat ∧
      ∀ i < count.toNat,
        block.getD i [] =
          specs.enum.map
            (fun p => ruleValue p.2.rule count.toNat
              (seedEffective seed entropy) p.1 i) := by
  have hg : generate specs count seed entropy =
      Except.ok (assembleTuples
        (generateArrays specs count.toNat (seedEffective seed entropy))
        count.toNat) := by
    unfold generate
    rw [hval]
  refine ⟨_, hg, ?_, ?_⟩
  · unfold assembleTuples
    rw [List.length_map, List.length_range]
  · intro i hi
    rw [assembleTuples_getD _ _ _ hi]
    unfold generateArrays
    rw [List.map_map]
    refine List.map_congr_left (fun p _ => ?_)
    exact dimensionGrid_getD p.2.rule count.toNat _ p.1 i hi

/-- Witness for C5: two linear dimensions of count 2 generate exactly the
two tuples walking both grids simultaneously. -/
theorem generate_linear_index_walk_witness :
    ∃ block,
      generate [⟨"a", SampleRule.linear 0 1, 2⟩,
          ⟨"b", SampleRule.linear 10 20, 2⟩] 2 (some 7) 0
        = Except.ok block ∧
      block.length = (2 : Int).toNat ∧
      ∀ i < (2 : Int).toNat,
        block.getD i [] =
          ([⟨"a", SampleRule.linear 0 1, 2⟩,
            ⟨"b", SampleRule.linear 10 20, 2⟩] :
              List ParameterSpec).enum.map
            (fun p => ruleValue p.2.rule (2 : Int).toNat
              (seedEffective (some 7) 0) p.1 i) :=
  generate_linear_index_walk _ 2 (some 7) 0 (by decide)

/-- C6. Generation is deterministic in the seed: for every spec set,
count, and non-`None` seed `S`, the result of `generate` does not depend
on the external entropy source at all — two calls with seed `S` (whatever
fresh entropy each call would otherwise consume) yield identical
results. -/
theorem generate_deterministic_in_seed (specs : List ParameterSpec)
    (count : Int) (S : Nat) (entropy₁ entropy₂ : Nat) :
    generate specs count (some S) entropy₁
      = generate specs count (some S) entropy₂ := rfl

/-- The stream-driven shuffle permutes its input (given enough fuel). -/
theorem shuffleDraw_perm [DecidableEq α] (fuel : Nat) :
    ∀ (g : Nat) (xs : List α), xs.length = fuel →
      (shuffleDraw g fuel xs).Perm xs := by
  induction fuel with
  | zero =>
    intro g xs h
    rw [List.length_eq_zero] at h
    subst h
    simp [shuffleDraw]
  | succ n ih =>
    intro g xs h
    cases xs with
    | nil => simp at h
    | cons x rest =>
      have hlen : rest.length = n := by simpa using h
      have hidx : g % (rest.length + 1) < (x :: rest).length := by
        rw [List.length_cons]
        exact Nat.mod_lt _ (Nat.succ_pos _)
      have hmem : pickAt g x rest ∈ x :: rest := by
        unfold pickAt
        rw [List.getD_eq_getElem?_getD, List.getElem?_eq_getElem hidx]
        exact List.getElem_mem _
      have herase : ((x :: rest).erase (pickAt g x rest)).length = n := by
        have h1 := List.length_erase_add_one hmem
        rw [List.length_cons, hlen] at h1
        omega
      have ihp := ih (lcg g) ((x :: rest).erase (pickAt g x rest)) herase
      show (pickAt g x rest ::
        shuffleDraw (lcg g) n ((x :: rest).erase (pickAt g x rest))).Perm
          (x :: rest)
      exact (List.Perm.cons _ ihp).trans (List.perm_cons_erase hmem).symm

/-- C7. For every Latin-hypercube stratum assignment (any seed, any count,
any dimension), the multiset of stratum indices assigned across the
`count` samples equals `{0, …, count−1}` — each stratum used exactly once
— and there is exactly one stratum per sample index. -/
theorem latin_hypercube_strata_exact_cover (s0 count dim : Nat) :
    ((latin_hypercube_strata s0 count dim : List Nat) : Multiset Nat)
        = ((List.range count : List Nat) : Multiset Nat) ∧
      (latin_hypercube_strata s0 count dim).length = count := by
  have hp : (latin_hypercube_strata s0 count dim).Perm (List.range count) :=
    shuffleDraw_perm count (prngNat s0 dim) (List.range count)
      (List.length_range count)
  exact ⟨Multiset.coe_eq_coe.mpr hp, by rw [hp.length_eq, List.length_range]⟩

/-- A configuration with a non-positive count, a count mismatch, or a
malformed distribution never validates. -/
theorem validate_some_of_bad (specs : List ParameterSpec) (count : Int)
    (hbad : count ≤ 0 ∨
      (∃ s ∈ specs, s.count ≠ count) ∨
      (∃ s ∈ specs, malformedRule s.rule = true)) :
    ∃ e, validate specs count = some e := by
  unfold validate
  by_cases h1 : count ≤ 0
  · exact ⟨_, by rw [if_pos h1]⟩
  · rw [if_neg h1]
    by_cases h2 : specs.any (fun s => s.count ≠ count) = true
    · exact ⟨_, by rw [if_pos h2]⟩
    · rw [if_neg h2]
      by_cases h3 : specs.any (fun s => malformedRule s.rule) = true
      · exact ⟨_, by rw [if_pos h3]⟩
      · exfalso
        rcases hbad with h | ⟨s, hs, hne⟩ | ⟨s, hs, hm⟩
        · exact h1 h
        · exact h2 (List.any_eq_true.mpr ⟨s, hs, by simpa using hne⟩)
        · exact h3 (List.any_eq_true.mpr ⟨s, hs, hm⟩)

/-- C8. For every sweep invocation whose configuration has a mismatched
count across specs, a zero or negative count, or malformed distribution
parameters, a ConfigurationError is returned, no run is executed, and
nothing is persisted — the error is raised before any execution and is
fatal to the call. -/
theorem config_error_before_any_run (cfg : SweepConfig)
    (exec : Tuple → RunRecord) (entropy : Nat)
    (hbad : cfg.num_samples ≤ 0 ∨
      (∃ s ∈ cfg.specs, s.count ≠ cfg.num_samples) ∨
      (∃ s ∈ cfg.specs, malformedRule s.rule = true)) :
    ∃ e, parameter_sweep_checked cfg exec entropy
      = (Except.error e, [], none) := by
  obtain ⟨e, he⟩ := validate_some_of_bad cfg.specs cfg.num_samples hbad
  refine ⟨e, ?_⟩
  unfold parameter_sweep_checked generate
  rw [he]

/-- Witness for C8: a requested count of zero yields a configuration
error, zero executed runs, and no persisted store. -/
theorem config_error_before_any_run_witness :
    ∃ e, parameter_sweep_checked ⟨[], 0, none, Backend.serial⟩
        (fun t => ⟨t, [], Status.failed⟩) 0
      = (Except.error e, [], none) :=
  config_error_before_any_run ⟨[], 0, none, Backend.serial⟩
    (fun t => ⟨t, [], Status.failed⟩) 0 (Or.inl (by decide))

/-- Walking a row by index reproduces the row. -/
theorem range_map_getD (row : List ℚ) :
    (List.range row.length).map (fun j => row.getD j 0) = row := by
  apply List.ext_getElem
  · rw [List.length_map, List.length_range]
  · intro i h1 h2
    simp only [List.getElem_map, List.getElem_range]
    rw [List.getD_eq_getElem?_getD, List.getElem?_eq_getElem h2]
    rfl

/-- Reading the rows back from the columns of a rectangular row-major
table reproduces the table. -/
theorem rowsOf_toColumns (rows : List (List ℚ)) (w : Nat)
    (hw : ∀ row ∈ rows, row.length = w) :
    rowsOf (toColumns rows w) rows.length = rows := by
  unfold rowsOf toColumns columnOf
  apply List.ext_getElem
  · rw [List.length_map, List.length_range]
  · intro i h1 h2
    simp only [List.getElem_map, List.getElem_range, List.map_map]
    show (List.range w).map
        (fun j => (rows.map (fun row => row.getD j 0)).getD i 0)
      = rows.get ⟨i, h2⟩
    have hcell : ∀ j ∈ List.range w,
        ((rows.map (fun row => row.getD j 0)).getD i 0)
          = (rows.get ⟨i, h2⟩).getD j 0 :=
      fun j _ => getD_map_of_lt rows (fun row => row.getD j 0) i h2 0
    rw [List.map_congr_left hcell]
    have hrow : (rows.get ⟨i, h2⟩).length = w :=
      hw _ (List.get_mem rows i h2)
    rw [← hrow, range_map_getD]

/-- C9. For every well-formed SweepResult (each record carrying one value
per declared parameter key and output name), persisting it and reading it
back yields numerically identical parameter and output tables, both
through the primary structured (column-per-key) store and through the
flat tabular export. -/
theorem sweep_result_round_trip (r : SweepResult) (hwf : Wellformed r) :
    read_param_table (persist r) = r.records.map RunRecord.params ∧
    read_output_table (persist r) = r.records.map RunRecord.outputs ∧
    read_flat_params (flat_export r) r.paramKeys.length
        = r.records.map RunRecord.params ∧
    read_flat_outputs (flat_export r) r.paramKeys.length
        = r.records.map RunRecord.outputs := by
  have hlenp : (r.records.map RunRecord.params).length = r.records.length :=
    List.length_map _ _
  have hcount : (persist r).statusColumn.length
      = (r.records.map RunRecord.params).length := by
    rw [persist, List.length_map, List.length_map]
  refine ⟨?_, ?_, ?_, ?_⟩
  · rw [read_param_table, hcount]
    show rowsOf (toColumns (r.records.map RunRecord.params) r.paramKeys.length)
        (r.records.map RunRecord.params).length = r.records.map RunRecord.params
    refine rowsOf_toColumns _ _ (fun row hrow => ?_)
    obtain ⟨rec, hrec, hre⟩ := List.mem_map.mp hrow
    rw [← hre]
    exact (hwf rec hrec).1
  · rw [read_output_table]
    have hcount2 : (persist r).statusColumn.length
        = (r.records.map RunRecord.outputs).length := by
      rw [persist, List.length_map, List.length_map]
    rw [hcount2]
    show rowsOf (toColumns (r.records.map RunRecord.outputs) r.outputKeys.length)
        (r.records.map RunRecord.outputs).length = r.records.map RunRecord.outputs
    refine rowsOf_toColumns _ _ (fun row hrow => ?_)
    obtain ⟨rec, hrec, hre⟩ := List.mem_map.mp hrow
    rw [← hre]
    exact (hwf rec hrec).2
  · rw [read_flat_params, flat_export, List.map_map]
    refine List.map_congr_left (fun rec hrec => ?_)
    show (rec.params ++ rec.outputs).take r.paramKeys.length = rec.params
    rw [← (hwf rec hrec).1]
    exact List.take_left rec.params rec.outputs
  · rw [read_flat_outputs, flat_export, List.map_map]
    refine List.map_congr_left (fun rec hrec => ?_)
    show (rec.params ++ rec.outputs).drop r.paramKeys.length = rec.outputs
    rw [← (hwf rec hrec).1]
    exact List.drop_left rec.params rec.outputs

/-- Witness for C9: a concrete two-record result round-trips through both
the structured store and the flat export. -/
theorem sweep_result_round_trip_witness :
    read_param_table (persist
        ⟨["a", "b"], ["o"],
          [⟨[1, 2], [3], Status.success⟩, ⟨[4, 5], [6], Status.failed⟩],
          2, 1, Backend.serial⟩)
      = [[(1 : ℚ), 2], [4, 5]] ∧
    read_output_table (persist
        ⟨["a", "b"], ["o"],
          [⟨[1, 2], [3], Status.success⟩, ⟨[4, 5], [6], Status.failed⟩],
          2, 1, Backend.serial⟩)
      = [[(3 : ℚ)], [6]] ∧
    read_flat_params (flat_export
        ⟨["a", "b"], ["o"],
          [⟨[1, 2], [3], Status.success⟩, ⟨[4, 5], [6], Status.failed⟩],
          2, 1, Backend.serial⟩) 2
      = [[(1 : ℚ), 2], [4, 5]] ∧
    read_flat_outputs (flat_export
        ⟨["a", "b"], ["o"],
          [⟨[1, 2], [3], Status.success⟩, ⟨[4, 5], [6], Status.failed⟩],
          2, 1, Backend.serial⟩) 2
      = [[(3 : ℚ)], [6]] :=
  sweep_result_round_trip
    ⟨["a", "b"], ["o"],
      [⟨[1, 2], [3], Status.success⟩, ⟨[4, 5], [6], Status.failed⟩],
      2, 1, Backend.serial⟩
    (by
      intro rec hrec
      simp only [List.mem_cons, List.mem_singleton, List.not_mem_nil,
        or_false] at hrec
      rcases hrec with h | h <;> subst h <;> exact ⟨rfl, rfl⟩)

/-- A successful entry return determines the results array as the flat
export of the results dictionary. -/
theorem ok_mkReturn_inv (res : SweepResult) (arr : List (List ℚ))
    (r : SweepResult)
    (h : (Except.ok (mkReturn res) :
        Except ConfigError (List (List ℚ) × SweepResult))
      = Except.ok (arr, r)) :
    arr = flat_export r := by
  injection h with h2
  have ha := congrArg Prod.fst h2
  have hb := congrArg Prod.snd h2
  simp only [mkReturn] at ha hb
  rw [← ha, ← hb]

/-- C10. All three sweep variants expose the identical public entry point
`parameter_sweep(build_model, build_sweep_params, build_outputs,
build_outputs_kwargs, num_samples, seed, build_model_kwargs,
build_sweep_params_kwargs)` — the same `EntryArgs` interface and result
type — and every successful call returns a pair
`(results_array, results_dict)` in which the results array is the flat
per-run table of the results dictionary. -/
theorem entry_points_uniform (args : EntryArgs) :
    (∀ arr r, ParameterSweep.parameter_sweep args = Except.ok (arr, r) →
      arr = flat_export r) ∧
    (∀ arr r, RecursiveParameterSweep.parameter_sweep args = Except.ok (arr, r) →
      arr = flat_export r) ∧
    (∀ arr r, DifferentialParameterSweep.parameter_sweep args = Except.ok (arr, r) →
      arr = flat_export r) := by
  refine ⟨?_, ?_, ?_⟩ <;>
  · intro arr r h
    first
      | unfold ParameterSweep.parameter_sweep at h
      | unfold RecursiveParameterSweep.parameter_sweep at h
      | unfold DifferentialParameterSweep.parameter_sweep at h
    rcases hg : generate args.specs args.num_samples args.seed 0 with e | block <;>
      rw [hg] at h
    · exact absurd h (by simp)
    · exact ok_mkReturn_inv _ arr r h

/-- Witness for C10: a concrete successful simple-sweep entry call whose
returned results array is the flat export of its returned results
dictionary. -/
theorem entry_points_uniform_witness :
    ([[], []] : List (List ℚ)) = flat_export
      ⟨[], [], [⟨[], [], Status.success⟩, ⟨[], [], Status.success⟩],
        2, 2, Backend.serial⟩ :=
  (entry_points_uniform
      ⟨fun _ => [], fun _ _ => [], fun _ _ => [], [], 2, some 1, [], []⟩).1
    [[], []]
    ⟨[], [], [⟨[], [], Status.success⟩, ⟨[], [], Status.success⟩],
      2, 2, Backend.serial⟩
    (by rfl)

end ParamSweep
